import Mathlib

/-!
# Verification of the JsSIP SIP user-agent stack (VenusPR/SipJs)

Shallow embedding of the parts of the code base that the checked claims
are about, followed by theorems settling each claim.

Components embedded:
* `RequestSender` (constructor guard and digest-authentication retry logic,
  `src/unnamed/part_001`);
* `Registrator` 423 handling (`src/unnamed/part_000`);
* `Session.RequestSender` 491 glare handling (`src/src/UA.js`);
* `UA.recoverTransport` / `onTransportConnected` (`src/src/UA.js`);
* `mangleOffer`, `sendDTMF`, `terminate` of the RTCSession variant
  (`src/unnamed/part_002`);
* `NameAddrHeader` / `URI` printing together with a parser modelled from
  the specification (`src/src/NameAddrHeader.js`, `src/src/URI.js`);
* the `Message` lifecycle (`src/lib/Message.js`).
-/

namespace SipJs

/-! ## UA status (UA_Constants / JsSIP.C) -/

/-- UA status constants (`C.STATUS_INIT`, `C.STATUS_READY`,
`C.STATUS_USER_CLOSED`, `C.STATUS_NOT_READY`). -/
inductive UAStatus where
  | init
  | ready
  | userClosed
  | notReady
deriving DecidableEq, Repr

/-! ## RequestSender constructor guard (src/unnamed/part_001, lines 24-38)

```js
if (ua.status === UA_C.STATUS_USER_CLOSED &&
    (this.method !== JsSIP_C.BYE || this.method !== JsSIP_C.ACK)) {
  this.onTransportError();
}
```
-/

/-- The condition under which the `RequestSender` constructor immediately
signals `onTransportError`, transcribed verbatim from the source (note the
`||` between the two inequalities, exactly as in the code). -/
def requestSenderRejects (status : UAStatus) (method : String) : Bool :=
  status = UAStatus.userClosed && (method ≠ "BYE" || method ≠ "ACK")

/-! ## Registrator, 423 branch (src/unnamed/part_000, lines 134-145)

```js
case /^423$/.test(response.status_code):
  if(response.hasHeader('min-expires')) {
    min_expires = response.getHeader('min-expires');
    expires = (min_expires - this.expires);          // dead local variable
    this.registrationTimer = window.setTimeout(function() {
      self.register();
    }, this.expires * 1000);
  } else {
    this.registrationFailure(response, JsSIP.C.causes.SIP_FAILURE_CODE);
  }
```
-/

/-- The fields of the `Registrator` that the 423 branch can touch. -/
structure RegState where
  expires : Int
  registered : Bool
deriving DecidableEq, Repr

/-- Observable effect of the 423 branch. -/
inductive RegAction where
  /-- `window.setTimeout(self.register, delayMs)`: a re-REGISTER is
  scheduled `delayMs` milliseconds ahead. -/
  | scheduleRegister (delayMs : Int)
  /-- `registrationFailure(response, SIP_FAILURE_CODE)`: emits
  `registrationFailed` (and `unregistered` when previously registered). -/
  | emitRegistrationFailed
deriving DecidableEq, Repr

/-- The 423 branch of `Registrator.register`'s `receiveResponse`.
`minExpires` is the parsed `Min-Expires` header when present.  The source
computes `min_expires - this.expires` into a function-local variable that
is never read afterwards (returned here as the second component of the
scheduling action's payload is deliberately *not* done: the local is dead
and `this.expires` is left untouched), and schedules `self.register()`
after `this.expires * 1000` milliseconds. -/
def registratorReceive423 (st : RegState) (minExpires : Option Int) :
    RegState × RegAction :=
  match minExpires with
  | some _ => (st, RegAction.scheduleRegister (st.expires * 1000))
  | none =>
      ({ st with registered := false }, RegAction.emitRegistrationFailed)

/-! ## RequestSender digest authentication (src/unnamed/part_001, lines 78-154) -/

/-- The `challenged` / `staled` flags of a `RequestSender`. -/
structure AuthState where
  challenged : Bool
  staled : Bool
deriving DecidableEq, Repr

/-- The initial flags set in the constructor. -/
def AuthState.initial : AuthState := ⟨false, false⟩

/-- A parsed `WWW-Authenticate` / `Proxy-Authenticate` challenge; only the
`stale` field matters to the retry logic. -/
structure Challenge where
  stale : Bool
deriving DecidableEq, Repr

/-- The slice of a SIP response that `receiveResponse` inspects:
its status code and the challenge header (absent when the header is
missing or unparsable). -/
structure AuthResponse where
  status_code : Nat
  challenge : Option Challenge
deriving DecidableEq, Repr

/-- What `RequestSender.receiveResponse` does with one response. -/
inductive RSOutcome where
  /-- The request is cloned and resent with the named authorization
  header (`authorization` for 401, `proxy-authorization` for 407). -/
  | retry (authorizationHeaderName : String)
  /-- `this.applicant.receiveResponse(response)`. -/
  | forward
deriving DecidableEq, Repr

/-- One step of `RequestSender.receiveResponse`, transcribed from the
source.  `hasCredentials` models
`ua.configuration.password !== null || ua.configuration.ha1 !== null`;
`authOk` models `this.auth.authenticate(this.request, challenge)`
succeeding. -/
def rsReceiveResponse (hasCredentials authOk : Bool) (st : AuthState)
    (resp : AuthResponse) : AuthState × RSOutcome :=
  if (resp.status_code = 401 || resp.status_code = 407) && hasCredentials then
    match resp.challenge with
    | none => (st, RSOutcome.forward)
    | some ch =>
        if !st.challenged || (!st.staled && ch.stale) then
          if !authOk then (st, RSOutcome.forward)
          else
            ({ challenged := true, staled := st.staled || ch.stale },
             RSOutcome.retry
               (if resp.status_code = 401 then "authorization"
                else "proxy-authorization"))
        else (st, RSOutcome.forward)
  else (st, RSOutcome.forward)

/-- Run `receiveResponse` over a list of responses, collecting the
outcomes. -/
def rsRun (hasCredentials authOk : Bool) (st : AuthState) :
    List AuthResponse → AuthState × List RSOutcome
  | [] => (st, [])
  | r :: rs =>
      let (st', o) := rsReceiveResponse hasCredentials authOk st r
      let (st'', os) := rsRun hasCredentials authOk st' rs
      (st'', o :: os)

/-- Number of automatic retries in a list of outcomes. -/
def countRetries (os : List RSOutcome) : Nat :=
  os.countP fun o => match o with
    | RSOutcome.retry _ => true
    | RSOutcome.forward => false

/-! ## Session.RequestSender, 491 glare handling (src/src/UA.js, lines 3107-3173)

```js
receiveResponse: function(response) {
  if (response.method === JsSIP.C.INVITE && status_code === 491) {
    if (!this.reattempt) {
      this.request.cseq.value = this.request.dialog.local_seqnum += 1;
      this.reatemptTimer = window.setTimeout(..., this.getReattemptTimeout());
    } else {
      this.applicant.receiveResponse(response);
    }
  } else {
    this.applicant.receiveResponse(response);
  }
},
getReattemptTimeout: function() {
  if(this.session.direction === 'outgoing') {
    return (Math.random() * (4 - 2.1) + 2.1).toFixed(2);
  } else {
    return (Math.random() * 2).toFixed(2);
  }
}
```
-/

/-- JavaScript `Number.prototype.toFixed(2)` on the (positive, small)
values arising here: round to the nearest hundredth, halves away from
zero.  The JS method returns a string; `window.setTimeout` coerces it
back to this number. -/
def toFixed2 (v : ℚ) : ℚ := (⌊v * 100 + 1 / 2⌋ : ℚ) / 100

/-- `Session.RequestSender.getReattemptTimeout`, with `Math.random()`
passed in as `r ∈ [0,1)`.  The returned value is handed directly to
`window.setTimeout`, whose unit is the **millisecond**. -/
def getReattemptTimeout (outgoing : Bool) (r : ℚ) : ℚ :=
  if outgoing then toFixed2 (r * (4 - 21 / 10) + 21 / 10) else toFixed2 (r * 2)

/-- Observable effect of `Session.RequestSender.receiveResponse`. -/
inductive SRAction where
  /-- The request's CSeq is set to `newCseq` and a resend is scheduled
  `delayMs` milliseconds ahead via `window.setTimeout`. -/
  | scheduleRetry (newCseq : Int) (delayMs : ℚ)
  /-- `this.applicant.receiveResponse(response)`. -/
  | forwardToApplicant
deriving DecidableEq, Repr

/-- `Session.RequestSender.receiveResponse`.  `reattempt` is the
`this.reattempt` flag (set once the scheduled resend fires),
`localSeqnum` the dialog's `local_seqnum`, `outgoing` the session
direction, `r` the value of `Math.random()`. -/
def sessionRsReceiveResponse (reattempt : Bool) (localSeqnum : Int)
    (outgoing : Bool) (r : ℚ) (method : String) (status_code : Nat) :
    SRAction :=
  if method = "INVITE" && status_code = 491 then
    if !reattempt then
      SRAction.scheduleRetry (localSeqnum + 1) (getReattemptTimeout outgoing r)
    else SRAction.forwardToApplicant
  else SRAction.forwardToApplicant

/-! ## Transport recovery (src/src/UA.js, lines 568-596 and 319-326)

```js
k = Math.floor((Math.random() * Math.pow(2,count)) +1);
nextRetry = k * ua.configuration.connection_recovery_min_interval;
if (nextRetry > ua.configuration.connection_recovery_max_interval) {
  nextRetry = ua.configuration.connection_recovery_min_interval;
  count = 0;
}
window.setTimeout(function(){
  ua.transportRecoverAttempts = count + 1;
  new JsSIP.Transport(ua, server);
}, nextRetry * 1000);
```
and in `onTransportConnected`: `this.transportRecoverAttempts = 0;`.
-/

/-- What `recoverTransport` leaves behind: the delay before the next
connection attempt and the value of `count` captured by the timer
callback (the callback stores `count + 1` into
`transportRecoverAttempts` when it fires). -/
structure RecoverResult where
  nextRetrySeconds : ℚ
  savedCount : ℕ
deriving DecidableEq, Repr

/-- `UA.prototype.recoverTransport` with `Math.random()` passed in as
`r ∈ [0,1)` and the two recovery intervals as arguments. -/
def recoverTransport (count : ℕ) (r minInterval maxInterval : ℚ) :
    RecoverResult :=
  let k : ℤ := ⌊r * 2 ^ count + 1⌋
  let nextRetry : ℚ := (k : ℚ) * minInterval
  if nextRetry > maxInterval then ⟨minInterval, 0⟩ else ⟨nextRetry, count⟩

/-- The attempt counter once the scheduled attempt fires
(`ua.transportRecoverAttempts = count + 1`). -/
def attemptsAfterRecoverFires (res : RecoverResult) : ℕ := res.savedCount + 1

/-- `UA.prototype.onTransportConnected` resets the counter
(`this.transportRecoverAttempts = 0`). -/
def attemptsAfterTransportConnected : ℕ := 0

/-! ## mangleOffer (src/unnamed/part_002, lines 3024-3097) -/

/-- SDP media-level direction attribute values. -/
inductive MediaDirection where
  | sendrecv
  | sendonly
  | recvonly
  | inactive
deriving DecidableEq, Repr

/-- One `m=` section of a parsed SDP: its media type and its (optional)
direction attribute, the only parts `mangleOffer` reads or writes. -/
structure MediaSection where
  type : String
  direction : Option MediaDirection
deriving DecidableEq, Repr

/-- `const holdMediaTypes = [ 'audio', 'video' ];` -/
def holdMediaTypes : List String := ["audio", "video"]

/-- Loop body of the local-hold branch of `mangleOffer`. -/
def mangleMediaLocalHold (m : MediaSection) : MediaSection :=
  if !(holdMediaTypes.contains m.type) then m
  else
    match m.direction with
    | none => { m with direction := some MediaDirection.sendonly }
    | some MediaDirection.sendrecv => { m with direction := some MediaDirection.sendonly }
    | some MediaDirection.recvonly => { m with direction := some MediaDirection.inactive }
    | some _ => m

/-- Loop body of the local-and-remote-hold branch of `mangleOffer`. -/
def mangleMediaBothHold (m : MediaSection) : MediaSection :=
  if !(holdMediaTypes.contains m.type) then m
  else { m with direction := some MediaDirection.inactive }

/-- Loop body of the remote-hold branch of `mangleOffer`. -/
def mangleMediaRemoteHold (m : MediaSection) : MediaSection :=
  if !(holdMediaTypes.contains m.type) then m
  else
    match m.direction with
    | none => { m with direction := some MediaDirection.recvonly }
    | some MediaDirection.sendrecv => { m with direction := some MediaDirection.recvonly }
    | some MediaDirection.recvonly => { m with direction := some MediaDirection.inactive }
    | some _ => m

/-- `mangleOffer(sdp)`, with the session's `_localHold` / `_remoteHold`
flags as arguments and the SDP as its list of media sections. -/
def mangleOffer (localHold remoteHold : Bool) (sdp : List MediaSection) :
    List MediaSection :=
  if !localHold && !remoteHold then sdp
  else if localHold && !remoteHold then sdp.map mangleMediaLocalHold
  else if localHold && remoteHold then sdp.map mangleMediaBothHold
  else sdp.map mangleMediaRemoteHold

/-- Pointwise direction table of the *amended* claim C6, written from the
amended wording rather than from the source, for comparison with
`mangleOffer`: only audio/video sections are touched; local-only hold
sends `sendrecv`/absent to `sendonly` and `recvonly` to `inactive`;
remote-only hold sends `sendrecv`/absent to `recvonly` and `recvonly` to
`inactive` (leaving `sendonly` alone); double hold forces `inactive`;
no hold changes nothing. -/
def specMangledMedia (localHold remoteHold : Bool) (m : MediaSection) :
    MediaSection :=
  if m.type ≠ "audio" ∧ m.type ≠ "video" then m
  else
    match localHold, remoteHold with
    | false, false => m
    | true, false =>
        match m.direction with
        | none => { m with direction := some MediaDirection.sendonly }
        | some MediaDirection.sendrecv => { m with direction := some MediaDirection.sendonly }
        | some MediaDirection.recvonly => { m with direction := some MediaDirection.inactive }
        | some d => { m with direction := some d }
    | true, true => { m with direction := some MediaDirection.inactive }
    | false, true =>
        match m.direction with
        | none => { m with direction := some MediaDirection.recvonly }
        | some MediaDirection.sendrecv => { m with direction := some MediaDirection.recvonly }
        | some MediaDirection.recvonly => { m with direction := some MediaDirection.inactive }
        | some d => { m with direction := some d }

/-! ## sendDTMF (src/unnamed/part_002, lines 873-996)

```js
if (!tones || typeof tones !== 'string' || !tones.match(/^[0-9A-DR#*,]+$/i))
{
  throw new TypeError(`Invalid tones: ${tones}`);
}
...
if (tone === ',') { timeout = 2000; }
else { const dtmf = new RTCSession_DTMF(this); ... dtmf.send(tone, options);
       timeout = duration + interToneGap; }
```
-/

/-- One character of the tone-string character class `[0-9A-DR#*,]` under
the regex's `/i` (case-insensitive) flag. -/
def dtmfCharOk (c : Char) : Bool :=
  ('0' ≤ c && c ≤ '9') || ('A' ≤ c && c ≤ 'D') || ('a' ≤ c && c ≤ 'd') ||
  c = 'R' || c = 'r' || c = '#' || c = '*' || c = ','

/-- The tones-argument validation of `sendDTMF`: a falsy (empty) string or
any character outside the class throws `TypeError`; `true` means the call
is accepted. -/
def sendDTMFTonesAccepted (tones : String) : Bool :=
  !tones.isEmpty && tones.data.all dtmfCharOk

/-- What the `_sendDTMF` worker does with one tone. -/
inductive DTMFStep where
  /-- A `','` tone: no INFO is sent; the next tone is scheduled
  `timeoutMs` milliseconds ahead. -/
  | pause (timeoutMs : ℕ)
  /-- Any other tone: an INFO-carrying `RTCSession_DTMF` is sent and the
  next tone is scheduled `timeoutMs` milliseconds ahead. -/
  | sendInfoTone (tone : Char) (timeoutMs : ℕ)
deriving DecidableEq, Repr

/-- The per-tone branch of `_sendDTMF` (with the already-clamped
`duration` and `interToneGap` in milliseconds). -/
def dtmfProcessTone (duration interToneGap : ℕ) (c : Char) : DTMFStep :=
  if c = ',' then DTMFStep.pause 2000
  else DTMFStep.sendInfoTone c (duration + interToneGap)

/-! ## RTCSession.terminate (src/unnamed/part_002, lines 722-870, and the
equivalent status guard in src/src/UA.js lines 2898-2903) -/

/-- RTCSession status constants (`RTCSession_Constants`). -/
inductive SessionStatus where
  | null
  | inviteSent
  | oneXxReceived
  | inviteReceived
  | waitingForAnswer
  | answered
  | waitingForAck
  | canceled
  | confirmed
  | terminated
deriving DecidableEq, Repr

/-- Exceptions `terminate` can throw. -/
inductive TerminateError where
  /-- `new Exceptions.InvalidStateError(this._status)` -/
  | invalidState
  /-- `new TypeError('Invalid status_code: …')` -/
  | invalidStatusCode
deriving DecidableEq, Repr

/-- SIP traffic emitted by `terminate`. -/
inductive TerminateEffect where
  /-- Null / InviteSent: `isCanceled := true`, the cancel reason is
  buffered for the first provisional. -/
  | bufferCancel
  /-- 1xxReceived: `this.request.cancel(reason)` sends CANCEL now. -/
  | sendCancel
  /-- WaitingForAnswer / Answered: `this.request.reply(status_code, …)`. -/
  | replyToInvite (status_code : ℕ)
  /-- `sendRequest(BYE)`. -/
  | sendBye
  /-- WaitingForAck + incoming + live server transaction: the BYE is
  deferred until ACK arrives or the transaction terminates. -/
  | deferByeUntilAck
deriving DecidableEq, Repr

/-- Session events emitted by `terminate` (both `failed` and `ended` run
`_close()`, which sets the status to Terminated). -/
inductive TerminateEvent where
  | failedCanceled
  | failedRejected
  | endedBye
deriving DecidableEq, Repr

/-- `RTCSession.terminate(options)`.  `statusCode` is
`options.status_code` (absent when not given); `incoming` the session
direction; `serverTxnTerminated` whether
`this.request.server_transaction.state === STATUS_TERMINATED`.  Returns
the thrown exception, or the final status together with the effects and
events. -/
def rtcTerminate (st : SessionStatus) (statusCode : Option ℕ)
    (incoming serverTxnTerminated : Bool) :
    Except TerminateError (SessionStatus × List TerminateEffect × List TerminateEvent) :=
  if st = SessionStatus.terminated then Except.error TerminateError.invalidState
  else
    match st with
    | SessionStatus.null | SessionStatus.inviteSent | SessionStatus.oneXxReceived =>
        match statusCode with
        | some sc =>
            if sc < 200 || 700 ≤ sc then Except.error TerminateError.invalidStatusCode
            else
              Except.ok (SessionStatus.terminated,
                [if st = SessionStatus.oneXxReceived then TerminateEffect.sendCancel
                 else TerminateEffect.bufferCancel],
                [TerminateEvent.failedCanceled])
        | none =>
            Except.ok (SessionStatus.terminated,
              [if st = SessionStatus.oneXxReceived then TerminateEffect.sendCancel
               else TerminateEffect.bufferCancel],
              [TerminateEvent.failedCanceled])
    | SessionStatus.waitingForAnswer | SessionStatus.answered =>
        let sc := statusCode.getD 480
        if sc < 300 || 700 ≤ sc then Except.error TerminateError.invalidStatusCode
        else
          Except.ok (SessionStatus.terminated,
            [TerminateEffect.replyToInvite sc], [TerminateEvent.failedRejected])
    | SessionStatus.waitingForAck | SessionStatus.confirmed =>
        match statusCode with
        | some sc =>
            if sc < 200 || 700 ≤ sc then Except.error TerminateError.invalidStatusCode
            else
              Except.ok (SessionStatus.terminated,
                [if st = SessionStatus.waitingForAck && incoming &&
                    !serverTxnTerminated then TerminateEffect.deferByeUntilAck
                 else TerminateEffect.sendBye],
                [TerminateEvent.endedBye])
        | none =>
            Except.ok (SessionStatus.terminated,
              [if st = SessionStatus.waitingForAck && incoming &&
                  !serverTxnTerminated then TerminateEffect.deferByeUntilAck
               else TerminateEffect.sendBye],
              [TerminateEvent.endedBye])
    | _ => Except.ok (st, [], [])

/-! ## Message lifecycle (src/lib/Message.js, lines 101-151 and 238-265)

`receiveResponse`, `onRequestTimeout` and `onTransportError` all begin
with `if (this._closed) { return; }`; `failed()` and `succeeded()` both
call `this.close()` (which sets `_closed = true`) *before* emitting their
event. -/

/-- The two terminal events a `Message` can emit. -/
inductive MessageEvent where
  | succeeded
  | failed
deriving DecidableEq, Repr

/-- The `_closed` flag together with the terminal events emitted so far
(in order). -/
structure MessageState where
  closed : Bool
  emitted : List MessageEvent
deriving DecidableEq, Repr

/-- A fresh outgoing `Message`. -/
def MessageState.initial : MessageState := ⟨false, []⟩

/-- The externally triggered callbacks of a `Message`. -/
inductive MessageAction where
  | receiveResponse (status_code : ℕ)
  | onRequestTimeout
  | onTransportError
  | close
deriving DecidableEq, Repr

/-- One callback invocation.  `succeeded`/`failed` are modelled as the
atomic "set `_closed`, then emit" sequence the source performs; a 1xx
response is ignored; stray status codes take the `default` branch
(`failed`), as in the source's `switch (true)`. -/
def messageStep (st : MessageState) : MessageAction → MessageState
  | MessageAction.receiveResponse sc =>
      if st.closed then st
      else if 100 ≤ sc && sc ≤ 199 then st
      else if 200 ≤ sc && sc ≤ 299 then
        ⟨true, st.emitted ++ [MessageEvent.succeeded]⟩
      else ⟨true, st.emitted ++ [MessageEvent.failed]⟩
  | MessageAction.onRequestTimeout =>
      if st.closed then st else ⟨true, st.emitted ++ [MessageEvent.failed]⟩
  | MessageAction.onTransportError =>
      if st.closed then st else ⟨true, st.emitted ++ [MessageEvent.failed]⟩
  | MessageAction.close => ⟨true, st.emitted⟩

/-- A whole sequence of callback invocations. -/
def messageRun (st : MessageState) : List MessageAction → MessageState
  | [] => st
  | a :: as' => messageRun (messageStep st a) as'

/-! ## URI and NameAddrHeader (src/src/URI.js, src/src/NameAddrHeader.js)

Text is handled as explicit character lists (`String.data`) so printing
and parsing can recurse structurally. -/

/-- Parameter maps as stored by `setParam` (insertion order preserved;
`null`-valued parameters print as bare `;key`). -/
abbrev SipParams := List (List Char × Option (List Char))

/-- `';' + key` or `';' + key + '=' + value` — the fragment both
`URI.prototype.toString` and `NameAddrHeader.prototype.toString` append
per parameter. -/
def paramChars : List Char × Option (List Char) → List Char
  | (k, none) => ';' :: k
  | (k, some v) => ';' :: (k ++ '=' :: v)

/-- The whole printed parameter tail. -/
def paramsChars (ps : SipParams) : List Char :=
  (ps.map paramChars).flatten

/-- The part of a printed parameter after its `';'`. -/
def paramToken (k : List Char) (v : Option (List Char)) : List Char :=
  k ++ (match v with | none => [] | some w => '=' :: w)

/-- Decimal digit to character. -/
def digitChar (d : ℕ) : Char := Char.ofNat (48 + d)

/-- Decimal representation of a JS number (most significant digit first;
`0` yields `[]`, but `toString` never prints a zero port, see
`URI.toChars`). -/
def natToChars (n : ℕ) : List Char := (Nat.digits 10 n).reverse.map digitChar

/-- `JsSIP.URI`: scheme, user, host, port and the parameter map
(headers are not used by `NameAddrHeader` printing and are omitted). -/
structure URI where
  scheme : List Char
  user : Option (List Char)
  host : List Char
  port : Option ℕ
  parameters : SipParams
deriving DecidableEq, Repr

/-- `JsSIP.URI.prototype.toString`:
`(scheme || 'sip') + ':' + (user ? encodeURIComponent(user)+'@' : '') +
host + (port ? ':'+port : '') + ';key(=value)*` with parameter keys
lowercased on printing.  `encodeURIComponent` is modelled as the
identity; the wellformedness predicate used by the round-trip theorem
restricts the user part to characters the encoder leaves alone. -/
def URI.toChars (u : URI) : List Char :=
  (if u.scheme = [] then ['s', 'i', 'p'] else u.scheme) ++ ':' ::
  ((match u.user with
    | some us => if us = [] then [] else us ++ ['@']
    | none => []) ++
   u.host ++
   (match u.port with
    | some p => if p = 0 then [] else ':' :: natToChars p
    | none => []) ++
   paramsChars (u.parameters.map fun p => (p.1.map Char.toLower, p.2)))

/-- `JsSIP.NameAddrHeader`: URI, display name and header parameters
(keys lowercased by `setParam` on insertion). -/
structure NameAddrHeader where
  uri : URI
  display_name : Option (List Char)
  parameters : SipParams
deriving DecidableEq, Repr

/-- JS truthiness of `this.display_name` (absent or empty is falsy). -/
def NameAddrHeader.displayPresent (h : NameAddrHeader) : Bool :=
  match h.display_name with
  | some d => !d.isEmpty
  | none => false

/-- `JsSIP.NameAddrHeader.prototype.toString`:
`('"'+display_name+'" ')? + (display_name ? '<'+uri+'>' : uri) +
';key(=value)*`.  Note the angle brackets around the URI are printed
*only* when a display name is present. -/
def NameAddrHeader.toChars (h : NameAddrHeader) : List Char :=
  if h.displayPresent then
    '"' :: ((h.display_name.getD []) ++ '"' :: ' ' :: '<' ::
      (h.uri.toChars ++ '>' :: paramsChars h.parameters))
  else h.uri.toChars ++ paramsChars h.parameters

/-- Split at the first occurrence of `c`: the prefix before it and the
suffix after it (`none` when `c` does not occur). -/
def splitAtChar (c : Char) : List Char → List Char × Option (List Char)
  | [] => ([], none)
  | x :: xs =>
      if x = c then ([], some xs)
      else
        let (a, b) := splitAtChar c xs
        (x :: a, b)

/-- Split into `c`-separated tokens (never returns `[]`). -/
def splitOnChar (c : Char) : List Char → List (List Char)
  | [] => [[]]
  | x :: xs =>
      match splitOnChar c xs with
      | [] => [[]]
      | t :: ts => if x = c then [] :: t :: ts else (x :: t) :: ts

/-- One parameter token `key(=value)?`; the parser stores keys through
`setParam`, which lowercases them. -/
def parseOneParam (t : List Char) : List Char × Option (List Char) :=
  let (k, v) := splitAtChar '=' t
  (k.map Char.toLower, v)

/-- Parse a parameter region that starts with its leading `';'`
(an empty region yields no parameters). -/
def parseParamsRegion : List Char → SipParams
  | [] => []
  | _ :: rest => (splitOnChar ';' rest).map parseOneParam

/-- Decimal string to number (as the grammar's port rule does). -/
def parseNat (s : List Char) : ℕ :=
  s.foldl (fun a c => a * 10 + (c.toNat - 48)) 0

/-- Modelled from the spec: the SIP grammar/parser is an out-of-scope
external collaborator ("Grammar/parser for SIP messages and URIs
(assumed available as a parse function returning structured values or a
failure sentinel)").  This models the RFC 3261 SIP-URI rule for the
strings `URI.toChars` produces: `scheme ':' [user '@'] host [':' port]
(';' param)*`. -/
def parseURI (s : List Char) : Option URI :=
  match splitAtChar ':' s with
  | (_, none) => none
  | (scheme, some rest) =>
      let (core, pr) := splitAtChar ';' rest
      let params : SipParams :=
        match pr with
        | none => []
        | some r => parseParamsRegion (';' :: r)
      let (userPart, hp) := splitAtChar '@' core
      let (user, hostport) :=
        match hp with
        | some afterAt => (some userPart, afterAt)
        | none => (none, core)
      let (host, portCs) := splitAtChar ':' hostport
      let port : Option ℕ :=
        match portCs with
        | none => none
        | some pcs => some (parseNat pcs)
      some ⟨scheme, user, host, port, params⟩

/-- Modelled from the spec: bare `addr-spec` form of a `To`/`From`/
`Contact`-style header.  Per RFC 3261 §20, when the URI is not enclosed
in angle brackets, *all* parameters after the URI are header parameters,
not URI parameters: the URI part ends at the first `';'`. -/
def parseBareAddr (s : List Char) : Option NameAddrHeader :=
  match splitAtChar ';' s with
  | (uriCs, pr) =>
      match parseURI uriCs with
      | none => none
      | some u =>
          some ⟨u, none,
            match pr with
            | none => []
            | some r => parseParamsRegion (';' :: r)⟩

/-- Modelled from the spec: the `name-addr / addr-spec` header-value
grammar the round-trip property quantifies over — an optional quoted
display name, then either an angle-bracketed URI followed by header
parameters, or a bare URI whose trailing parameters all belong to the
header (RFC 3261 §20). -/
def parseNameAddr (s : List Char) : Option NameAddrHeader :=
  match s with
  | [] => none
  | c :: rest =>
      if c = '"' then
        match splitAtChar '"' rest with
        | (_, none) => none
        | (dn, some r1) =>
            match r1 with
            | sp :: lt :: r2 =>
                if sp = ' ' ∧ lt = '<' then
                  match splitAtChar '>' r2 with
                  | (_, none) => none
                  | (uriCs, some r3) =>
                      match parseURI uriCs with
                      | none => none
                      | some u => some ⟨u, some dn, parseParamsRegion r3⟩
                else none
            | _ => none
      else parseBareAddr (c :: rest)

/-- Characters that cannot be confused with the grammar's separators
(`:`, `;`, `@`, `<`, `>`, `"`, `=`). -/
def sipPlainChar (c : Char) : Bool :=
  !(c = ':' || c = ';' || c = '@' || c = '<' || c = '>' || c = '"' || c = '=')

/-- A token of plain characters. -/
def wfToken (t : List Char) : Prop := ∀ c ∈ t, sipPlainChar c = true

/-- A token already in lower case (the invariant `setParam` maintains
for parameter keys). -/
def lowerToken (t : List Char) : Prop := ∀ c ∈ t, Char.toLower c = c

/-- Wellformed parameter map: plain lowercase keys, plain values. -/
def wfParams (ps : SipParams) : Prop :=
  ∀ p ∈ ps, wfToken p.1 ∧ lowerToken p.1 ∧ ∀ v, p.2 = some v → wfToken v

/-- Wellformed URI: nonempty plain scheme, nonempty plain user when
present (so `encodeURIComponent` is the identity on it), plain host,
no zero port (JS prints a zero port as absent), wellformed parameters. -/
def wfURI (u : URI) : Prop :=
  wfToken u.scheme ∧ u.scheme ≠ [] ∧
  (∀ us, u.user = some us → wfToken us ∧ us ≠ []) ∧
  wfToken u.host ∧
  u.port ≠ some 0 ∧
  wfParams u.parameters

/-- Wellformed header value: wellformed URI, display name (when present)
nonempty and quote-free, wellformed header parameters. -/
def wfNA (h : NameAddrHeader) : Prop :=
  wfURI h.uri ∧
  (∀ d, h.display_name = some d → d ≠ [] ∧ '"' ∉ d) ∧
  wfParams h.parameters

end SipJs

namespace SipJs

/-! # Theorems -/

/-- Helper: the guard in the `RequestSender` constructor is a tautology in
the method once the UA is user-closed. -/
theorem requestSenderRejects_userClosed (m : String) :
    requestSenderRejects UAStatus.userClosed m = true := by
  unfold requestSenderRejects
  by_cases h : m = "BYE"
  · subst h; decide
  · simp [h]

/-- C1: the claim says that with UA status `UserClosed` the `RequestSender`
constructor signals `onTransportError` iff the method is neither BYE nor
ACK.  The code's guard uses `||` between the two inequalities
(`method !== BYE || method !== ACK`), which no method can falsify, so every
method — BYE and ACK included — is rejected.  This contradicts the comment
directly above the guard ("just allow sending Bye and ACK"), so the code,
not the claim, is wrong. -/
theorem claim_C1_userClosed_rejects_every_method :
    (∀ m : String, requestSenderRejects UAStatus.userClosed m = true) ∧
    requestSenderRejects UAStatus.userClosed "BYE" = true ∧
    requestSenderRejects UAStatus.userClosed "ACK" = true :=
  ⟨requestSenderRejects_userClosed,
   requestSenderRejects_userClosed "BYE",
   requestSenderRejects_userClosed "ACK"⟩

/-- C2: the claim (with RFC 3261 §10.2.8) says a 423 response with
`Min-Expires: 3600` makes the registrator adopt 3600 as its requested
expires and retry.  The code instead stores `min_expires - this.expires`
in a dead local, leaves `this.expires` at 600 and schedules the retry
after the old `this.expires` seconds — so the re-REGISTER repeats the
value the registrar just rejected.  Without `Min-Expires` it emits
`registrationFailed` and schedules nothing, as claimed. -/
theorem claim_C2_423_keeps_old_expires :
    registratorReceive423 ⟨600, true⟩ (some 3600) =
      (⟨600, true⟩, RegAction.scheduleRegister 600000) ∧
    (600 : Int) ≠ 3600 ∧
    registratorReceive423 ⟨600, true⟩ none =
      (⟨600, false⟩, RegAction.emitRegistrationFailed) := by
  refine ⟨rfl, by decide, rfl⟩

/-- Helper: once both `challenged` and `staled` are set, `receiveResponse`
forwards every response and leaves the flags alone. -/
theorem rsReceiveResponse_staled (hc ak : Bool) (r : AuthResponse) :
    rsReceiveResponse hc ak ⟨true, true⟩ r = (⟨true, true⟩, RSOutcome.forward) := by
  rcases r with ⟨sc, _ | ⟨st⟩⟩ <;> simp [rsReceiveResponse]

/-- Helper: from `challenged ∧ ¬staled`, a step either forwards unchanged
or retries into the fully-exhausted state. -/
theorem rsReceiveResponse_challenged (hc ak : Bool) (r : AuthResponse) :
    rsReceiveResponse hc ak ⟨true, false⟩ r = (⟨true, false⟩, RSOutcome.forward) ∨
    ∃ hn, rsReceiveResponse hc ak ⟨true, false⟩ r =
      (⟨true, true⟩, RSOutcome.retry hn) := by
  obtain ⟨sc, ch⟩ := r
  cases ch with
  | none => left; simp [rsReceiveResponse]
  | some c =>
      obtain ⟨st⟩ := c
      by_cases h1 : (sc = 401 || sc = 407) && hc
      · cases st with
        | false => left; simp [rsReceiveResponse, h1]
        | true =>
            by_cases h2 : ak
            · right
              exact ⟨if sc = 401 then "authorization" else "proxy-authorization",
                by simp [rsReceiveResponse, h1, h2]⟩
            · left
              simp only [Bool.not_eq_true] at h2
              simp [rsReceiveResponse, h1, h2]
      · left; simp [rsReceiveResponse, h1]

/-- Helper: from the initial state, a step either forwards unchanged or
retries into a challenged state. -/
theorem rsReceiveResponse_initial (hc ak : Bool) (r : AuthResponse) :
    rsReceiveResponse hc ak ⟨false, false⟩ r = (⟨false, false⟩, RSOutcome.forward) ∨
    ∃ st hn, rsReceiveResponse hc ak ⟨false, false⟩ r =
      (⟨true, st⟩, RSOutcome.retry hn) := by
  obtain ⟨sc, ch⟩ := r
  cases ch with
  | none => left; simp [rsReceiveResponse]
  | some c =>
      obtain ⟨st⟩ := c
      by_cases h1 : (sc = 401 || sc = 407) && hc
      · by_cases h2 : ak
        · right
          exact ⟨st, if sc = 401 then "authorization" else "proxy-authorization",
            by simp [rsReceiveResponse, h1, h2]⟩
        · left
          simp only [Bool.not_eq_true] at h2
          simp [rsReceiveResponse, h1, h2]
      · left; simp [rsReceiveResponse, h1]

/-- Helper: `countRetries` of a cons. -/
theorem countRetries_cons (o : RSOutcome) (os : List RSOutcome) :
    countRetries (o :: os) =
      countRetries os + (match o with
        | RSOutcome.retry _ => 1
        | RSOutcome.forward => 0) := by
  cases o <;> simp [countRetries, List.countP_cons]

/-- Helper: no retries ever happen from the exhausted state. -/
theorem rsRun_staled (hc ak : Bool) (rs : List AuthResponse) :
    countRetries (rsRun hc ak ⟨true, true⟩ rs).2 = 0 := by
  induction rs with
  | nil => simp [rsRun, countRetries]
  | cons r rs ih =>
      simp only [rsRun, rsReceiveResponse_staled, countRetries_cons]
      simpa using ih

/-- Helper: at most one retry from the challenged-but-not-staled state. -/
theorem rsRun_challenged (hc ak : Bool) (rs : List AuthResponse) :
    countRetries (rsRun hc ak ⟨true, false⟩ rs).2 ≤ 1 := by
  induction rs with
  | nil => simp [rsRun, countRetries]
  | cons r rs ih =>
      rcases rsReceiveResponse_challenged hc ak r with h | ⟨hn, h⟩
      · simp only [rsRun, h, countRetries_cons]
        omega
      · simp only [rsRun, h, countRetries_cons]
        have := rsRun_staled hc ak rs
        omega

/-- Helper: at most two retries from the initial state. -/
theorem rsRun_initial (hc ak : Bool) (rs : List AuthResponse) :
    countRetries (rsRun hc ak ⟨false, false⟩ rs).2 ≤ 2 := by
  induction rs with
  | nil => simp [rsRun, countRetries]
  | cons r rs ih =>
      rcases rsReceiveResponse_initial hc ak r with h | ⟨st, hn, h⟩
      · simp only [rsRun, h, countRetries_cons]
        omega
      · simp only [rsRun, h, countRetries_cons]
        cases st
        · have := rsRun_challenged hc ak rs
          omega
        · have := rsRun_staled hc ak rs
          omega

/-- C3 counterexample: the claim says any second 401/407 — "including one
whose challenge has stale=true" — is forwarded to the applicant.  With
credentials configured, a first (non-stale) 401 followed by a second 401
whose challenge carries `stale=true` produces two retries: the second
response is *not* forwarded. -/
theorem claim_C3_counterexample :
    (rsRun true true AuthState.initial
        [⟨401, some ⟨false⟩⟩, ⟨401, some ⟨true⟩⟩]).2 =
      [RSOutcome.retry "authorization", RSOutcome.retry "authorization"] ∧
    RSOutcome.retry "authorization" ≠ RSOutcome.forward := by
  exact ⟨rfl, by decide⟩

/-- C3 (amended): for every request sent through the `RequestSender` with
credentials configured, at most **two** automatic digest retries are
performed: one for the first 401/407, and one more **only** for a later
401/407 whose challenge has `stale=true` when no stale challenge was seen
before.  Concretely, from the challenged-but-not-staled state a response
with a missing challenge or a non-stale challenge is forwarded unchanged
(whatever its status code, the credentials flag or the authenticate
outcome), while a stale 401/407 challenge is retried with the matching
authorization header; and once both flags are set (`challenged` and
`staled`), every further response is forwarded to the applicant with no
retry. -/
theorem claim_C3_at_most_two_retries (hc ak : Bool) (rs : List AuthResponse)
    (r : AuthResponse) (sc : ℕ) :
    countRetries (rsRun hc ak AuthState.initial rs).2 ≤ 2 ∧
    (rsReceiveResponse hc ak ⟨true, true⟩ r).2 = RSOutcome.forward ∧
    rsReceiveResponse hc ak ⟨true, false⟩ ⟨sc, none⟩ =
      (⟨true, false⟩, RSOutcome.forward) ∧
    rsReceiveResponse hc ak ⟨true, false⟩ ⟨sc, some ⟨false⟩⟩ =
      (⟨true, false⟩, RSOutcome.forward) ∧
    rsReceiveResponse true true ⟨true, false⟩ ⟨401, some ⟨true⟩⟩ =
      (⟨true, true⟩, RSOutcome.retry "authorization") ∧
    rsReceiveResponse true true ⟨true, false⟩ ⟨407, some ⟨true⟩⟩ =
      (⟨true, true⟩, RSOutcome.retry "proxy-authorization") := by
  refine ⟨rsRun_initial hc ak rs, by rw [rsReceiveResponse_staled], ?_, ?_,
    by decide, by decide⟩
  · by_cases h1 : (sc = 401 || sc = 407) && hc <;>
      simp [rsReceiveResponse, h1]
  · by_cases h1 : (sc = 401 || sc = 407) && hc <;>
      simp [rsReceiveResponse, h1]

/-- C4: the claim (and RFC 3261 §14.1, which the code cites) says the
491 retry of an outgoing re-INVITE is delayed by a value drawn uniformly
from 2.1 to 4.0 **seconds**.  The code computes that value but hands it,
unscaled (and as a string produced by `toFixed(2)`), straight to
`window.setTimeout`, whose unit is milliseconds: with `Math.random()`
returning 1/2 the UAC retry fires after 3.05 **milliseconds**, a
thousandfold too early.  The single retry with CSeq+1 itself is
performed as claimed (a second 491 is forwarded). -/
theorem claim_C4_reattempt_delay_milliseconds :
    sessionRsReceiveResponse false 5 true (1 / 2) "INVITE" 491 =
      SRAction.scheduleRetry 6 (61 / 20) ∧
    ¬ ((2100 : ℚ) ≤ 61 / 20) ∧
    sessionRsReceiveResponse true 6 true 0 "INVITE" 491 =
      SRAction.forwardToApplicant := by
  refine ⟨?_, by norm_num, by norm_num [sessionRsReceiveResponse]⟩
  norm_num [sessionRsReceiveResponse, getReattemptTimeout, toFixed2]

/-- C5 counterexample: the claim says that when
`nextRetry = k·min_interval` exceeds `connection_recovery_max_interval`
the delay is *capped at* `max_interval`.  With `min_interval = 2`,
`max_interval = 30`, 4 previous attempts and `Math.random() = 31/32`
(`k = 16`, `nextRetry = 32 > 30`), the code instead resets the delay to
`min_interval = 2`, not 30. -/
theorem claim_C5_counterexample :
    recoverTransport 4 (31 / 32) 2 30 = ⟨2, 0⟩ ∧ (2 : ℚ) ≠ 30 := by
  constructor
  · norm_num [recoverTransport]
  · norm_num

/-- C5 (amended): when no candidate server remains, the next attempt is
scheduled after `nextRetry = k · min_interval` seconds with
`k = ⌊r·2^attempts⌋ + 1 ∈ [1, 2^attempts]` (`r = Math.random()`);
whenever `nextRetry` would exceed `max_interval`, the delay is **reset to
`min_interval`** (in particular it never exceeds `max_interval` when
`min_interval ≤ max_interval`) and the attempt counter is reset to 0; a
successful connection also resets the attempt counter to 0. -/
theorem claim_C5_recovery_backoff (count : ℕ) (r minI maxI : ℚ)
    (h0 : 0 ≤ r) (h1 : r < 1) (hmm : minI ≤ maxI) :
    (1 ≤ ⌊r * 2 ^ count + 1⌋ ∧ ⌊r * 2 ^ count + 1⌋ ≤ 2 ^ count) ∧
    (recoverTransport count r minI maxI).nextRetrySeconds ≤ maxI ∧
    ((⌊r * 2 ^ count + 1⌋ : ℚ) * minI > maxI →
      recoverTransport count r minI maxI = ⟨minI, 0⟩) ∧
    ((⌊r * 2 ^ count + 1⌋ : ℚ) * minI ≤ maxI →
      recoverTransport count r minI maxI =
        ⟨(⌊r * 2 ^ count + 1⌋ : ℚ) * minI, count⟩) ∧
    attemptsAfterTransportConnected = 0 := by
  have hpow : (0 : ℚ) < 2 ^ count := by positivity
  have hk1 : 1 ≤ ⌊r * 2 ^ count + 1⌋ := by
    have : (0 : ℚ) ≤ r * 2 ^ count := by positivity
    have := Int.floor_nonneg.mpr this
    rw [show (r * 2 ^ count + 1 : ℚ) = r * 2 ^ count + (1 : ℤ) by push_cast; ring,
      Int.floor_add_int]
    omega
  have hk2 : ⌊r * 2 ^ count + 1⌋ ≤ 2 ^ count := by
    have hlt : r * 2 ^ count < 2 ^ count := by
      calc r * 2 ^ count < 1 * 2 ^ count := by
            exact mul_lt_mul_of_pos_right h1 hpow
        _ = 2 ^ count := one_mul _
    have : ⌊r * 2 ^ count⌋ < (2 : ℤ) ^ count := by
      rw [Int.floor_lt]
      push_cast
      exact hlt
    rw [show (r * 2 ^ count + 1 : ℚ) = r * 2 ^ count + (1 : ℤ) by push_cast; ring,
      Int.floor_add_int]
    omega
  refine ⟨⟨hk1, hk2⟩, ?_, ?_, ?_, rfl⟩
  · unfold recoverTransport
    by_cases h : (⌊r * 2 ^ count + 1⌋ : ℚ) * minI > maxI
    · simp only [h, if_pos]
      exact hmm
    · simp only [h, if_neg, not_false_iff]
      push_neg at h
      exact h
  · intro h
    unfold recoverTransport
    simp only [h, if_pos]
  · intro h
    unfold recoverTransport
    rw [if_neg (by push_neg; exact h)]

/-- Helper: `specMangledMedia` with no hold is the identity. -/
theorem specMangledMedia_none (m : MediaSection) :
    specMangledMedia false false m = m := by
  unfold specMangledMedia
  split <;> rfl

/-- Helper: the local-hold loop body matches the amended table. -/
theorem mangleMediaLocalHold_eq_spec (m : MediaSection) :
    mangleMediaLocalHold m = specMangledMedia true false m := by
  obtain ⟨t, dir⟩ := m
  by_cases ha : t = "audio"
  · subst ha
    rcases dir with _ | d
    · decide
    · cases d <;> decide
  · by_cases hv : t = "video"
    · subst hv
      rcases dir with _ | d
      · decide
      · cases d <;> decide
    · have hc : t ∉ holdMediaTypes := by
        simp [holdMediaTypes, ha, hv]
      simp [mangleMediaLocalHold, specMangledMedia, hc, ha, hv]

/-- Helper: the double-hold loop body matches the amended table. -/
theorem mangleMediaBothHold_eq_spec (m : MediaSection) :
    mangleMediaBothHold m = specMangledMedia true true m := by
  obtain ⟨t, dir⟩ := m
  by_cases ha : t = "audio"
  · subst ha
    simp [mangleMediaBothHold, specMangledMedia, holdMediaTypes]
  · by_cases hv : t = "video"
    · subst hv
      simp [mangleMediaBothHold, specMangledMedia, holdMediaTypes]
    · have hc : t ∉ holdMediaTypes := by
        simp [holdMediaTypes, ha, hv]
      simp [mangleMediaBothHold, specMangledMedia, hc, ha, hv]

/-- Helper: the remote-hold loop body matches the amended table. -/
theorem mangleMediaRemoteHold_eq_spec (m : MediaSection) :
    mangleMediaRemoteHold m = specMangledMedia false true m := by
  obtain ⟨t, dir⟩ := m
  by_cases ha : t = "audio"
  · subst ha
    rcases dir with _ | d
    · decide
    · cases d <;> decide
  · by_cases hv : t = "video"
    · subst hv
      rcases dir with _ | d
      · decide
      · cases d <;> decide
    · have hc : t ∉ holdMediaTypes := by
        simp [holdMediaTypes, ha, hv]
      simp [mangleMediaRemoteHold, specMangledMedia, hc, ha, hv]

/-- C6 counterexample: the claim says that under remote-only hold a
`sendonly` media direction becomes `inactive`.  The remote-hold branch of
`mangleOffer` rewrites `sendrecv → recvonly` and `recvonly → inactive`
but leaves `sendonly` untouched: an audio section offered `sendonly`
comes out of `mangleOffer` still `sendonly`. -/
theorem claim_C6_counterexample :
    mangleOffer false true [⟨"audio", some MediaDirection.sendonly⟩] =
      [⟨"audio", some MediaDirection.sendonly⟩] ∧
    (⟨"audio", some MediaDirection.sendonly⟩ : MediaSection) ≠
      ⟨"audio", some MediaDirection.inactive⟩ := by
  exact ⟨by decide, by decide⟩

/-- C6 (amended): `mangleOffer` rewrites only audio/video sections, and
pointwise as follows — local-only hold: absent/`sendrecv` → `sendonly`,
`recvonly` → `inactive`, `sendonly` and `inactive` unchanged; remote-only
hold: absent/`sendrecv` → `recvonly`, `recvonly` → `inactive`, `sendonly`
and `inactive` unchanged; both on hold: every audio/video direction
becomes `inactive`; no hold: the offer is returned unchanged. -/
theorem claim_C6_mangle_direction_table (lh rh : Bool) (sdp : List MediaSection) :
    mangleOffer lh rh sdp = sdp.map (specMangledMedia lh rh) := by
  cases lh <;> cases rh
  · rw [show specMangledMedia false false = fun m => m from
      funext specMangledMedia_none]
    simp [mangleOffer]
  · rw [← funext mangleMediaRemoteHold_eq_spec]
    simp [mangleOffer]
  · rw [← funext mangleMediaLocalHold_eq_spec]
    simp [mangleOffer]
  · rw [← funext mangleMediaBothHold_eq_spec]
    simp [mangleOffer]

/-- Helper: Boolean tone-character test versus its propositional form. -/
theorem dtmfCharOk_iff (c : Char) :
    dtmfCharOk c = true ↔
      ('0' ≤ c ∧ c ≤ '9') ∨ ('A' ≤ c ∧ c ≤ 'D') ∨ ('a' ≤ c ∧ c ≤ 'd') ∨
      c = 'R' ∨ c = 'r' ∨ c = '#' ∨ c = '*' ∨ c = ',' := by
  simp [dtmfCharOk, Bool.or_eq_true, Bool.and_eq_true, decide_eq_true_eq,
    and_assoc, or_assoc]

/-- C7 counterexample: the claim limits the accepted alphabet to
`[0-9A-D#*,]` and makes `','` a 200 ms pause.  The code's regex is
`/^[0-9A-DR#*,]+$/i`, so `"R"` is accepted rather than rejected with a
`TypeError`, and the `','` branch schedules the next tone 2000 ms (not
200 ms) ahead. -/
theorem claim_C7_counterexample :
    sendDTMFTonesAccepted "R" = true ∧
    dtmfProcessTone 100 500 ',' = DTMFStep.pause 2000 ∧
    (2000 : ℕ) ≠ 200 := by
  exact ⟨by decide, rfl, by decide⟩

/-- C7 (amended): `sendDTMF` accepts exactly the nonempty tone strings
over the alphabet `[0-9A-DR#*,]` taken case-insensitively (so `a`–`d`,
`r` and `R` are also accepted), rejecting anything else with a
`TypeError`; and the `','` tone is a **2000 ms** pause during which no
INFO request is sent. -/
theorem claim_C7_tone_alphabet (s : String) (d g : ℕ) :
    (sendDTMFTonesAccepted s = true ↔
      s ≠ "" ∧ ∀ c ∈ s.data,
        ('0' ≤ c ∧ c ≤ '9') ∨ ('A' ≤ c ∧ c ≤ 'D') ∨ ('a' ≤ c ∧ c ≤ 'd') ∨
        c = 'R' ∨ c = 'r' ∨ c = '#' ∨ c = '*' ∨ c = ',') ∧
    dtmfProcessTone d g ',' = DTMFStep.pause 2000 := by
  constructor
  · unfold sendDTMFTonesAccepted
    rw [Bool.and_eq_true, List.all_eq_true]
    constructor
    · rintro ⟨h1, h2⟩
      refine ⟨?_, fun c hc => (dtmfCharOk_iff c).mp (h2 c hc)⟩
      intro hs
      subst hs
      exact absurd h1 (by decide)
    · rintro ⟨h1, h2⟩
      refine ⟨?_, fun c hc => (dtmfCharOk_iff c).mpr (h2 c hc)⟩
      have : s.isEmpty = false := by
        cases hemp : s.isEmpty
        · rfl
        · exact absurd ((String.isEmpty_iff s).mp hemp) h1
      simp [this]
  · rfl

/-- C8 counterexample: the claim says `terminate()` on an
already-Terminated session raises no error.  Both Session variants begin
with `if (status === STATUS_TERMINATED) throw new InvalidStateError(…)`:
the call throws instead of returning silently. -/
theorem claim_C8_counterexample :
    rtcTerminate SessionStatus.terminated none false false =
      Except.error TerminateError.invalidState ∧
    (Except.error TerminateError.invalidState ≠
      (Except.ok (SessionStatus.terminated, [], []) :
        Except TerminateError
          (SessionStatus × List TerminateEffect × List TerminateEvent))) := by
  refine ⟨rfl, fun h => Except.noConfusion h⟩

/-- Helper: a closed `Message` absorbs every callback unchanged. -/
theorem messageStep_closed (evs : List MessageEvent) (a : MessageAction) :
    messageStep ⟨true, evs⟩ a = ⟨true, evs⟩ := by
  cases a <;> simp [messageStep]

/-- Helper: a closed `Message` absorbs every callback sequence. -/
theorem messageRun_closed (evs : List MessageEvent) (acts : List MessageAction) :
    messageRun ⟨true, evs⟩ acts = ⟨true, evs⟩ := by
  induction acts with
  | nil => rfl
  | cons a as ih => simp [messageRun, messageStep_closed, ih]

/-- Helper: one step from an open `Message` either stays open with the
same events, just closes, or closes while emitting exactly one terminal
event. -/
theorem messageStep_open (evs : List MessageEvent) (a : MessageAction) :
    messageStep ⟨false, evs⟩ a = ⟨false, evs⟩ ∨
    messageStep ⟨false, evs⟩ a = ⟨true, evs⟩ ∨
    ∃ e, messageStep ⟨false, evs⟩ a = ⟨true, evs ++ [e]⟩ := by
  cases a with
  | receiveResponse sc =>
      by_cases h1 : 100 ≤ sc && sc ≤ 199
      · left; simp [messageStep, h1]
      · by_cases h2 : 200 ≤ sc && sc ≤ 299
        · right; right
          exact ⟨MessageEvent.succeeded, by simp [messageStep, h1, h2]⟩
        · right; right
          exact ⟨MessageEvent.failed, by simp [messageStep, h1, h2]⟩
  | onRequestTimeout =>
      right; right; exact ⟨MessageEvent.failed, by simp [messageStep]⟩
  | onTransportError =>
      right; right; exact ⟨MessageEvent.failed, by simp [messageStep]⟩
  | close => right; left; simp [messageStep]

/-- Helper: from an open state, a run emits at most one more terminal
event. -/
theorem messageRun_open_length (evs : List MessageEvent)
    (acts : List MessageAction) :
    (messageRun ⟨false, evs⟩ acts).emitted.length ≤ evs.length + 1 := by
  induction acts generalizing evs with
  | nil => simp [messageRun]
  | cons a as ih =>
      rcases messageStep_open evs a with h | h | ⟨e, h⟩
      · simp only [messageRun, h]
        exact ih evs
      · simp only [messageRun, h, messageRun_closed]
        omega
      · simp only [messageRun, h, messageRun_closed]
        simp

/-- Helper: `splitAtChar` on a string not containing the separator. -/
theorem splitAtChar_not_mem {c : Char} : ∀ {s : List Char}, c ∉ s →
    splitAtChar c s = (s, none)
  | [], _ => rfl
  | x :: xs, h => by
      have hx : ¬x = c := fun hxc => h (hxc ▸ List.mem_cons_self x xs)
      have hxs : c ∉ xs := fun hm => h (List.mem_cons_of_mem x hm)
      simp [splitAtChar, hx, splitAtChar_not_mem hxs]

/-- Helper: `splitAtChar` cuts at the first separator occurrence. -/
theorem splitAtChar_append {c : Char} :
    ∀ {a : List Char} (b : List Char), c ∉ a →
      splitAtChar c (a ++ c :: b) = (a, some b)
  | [], b, _ => by simp [splitAtChar]
  | x :: xs, b, h => by
      have hx : ¬x = c := fun hxc => h (hxc ▸ List.mem_cons_self x xs)
      have hxs : c ∉ xs := fun hm => h (List.mem_cons_of_mem x hm)
      simp [splitAtChar, hx, splitAtChar_append b hxs]

/-- Helper: `splitOnChar` never returns the empty token list. -/
theorem splitOnChar_ne_nil (c : Char) : ∀ (s : List Char), splitOnChar c s ≠ []
  | [] => by simp [splitOnChar]
  | x :: xs => by
      cases h : splitOnChar c xs with
      | nil => simp [splitOnChar, h]
      | cons t ts =>
          by_cases hx : x = c <;> simp [splitOnChar, h, hx]

/-- Helper: `splitOnChar` on a separator-free string. -/
theorem splitOnChar_not_mem {c : Char} : ∀ {s : List Char}, c ∉ s →
    splitOnChar c s = [s]
  | [], _ => rfl
  | x :: xs, h => by
      have hx : ¬x = c := fun hxc => h (hxc ▸ List.mem_cons_self x xs)
      have hxs : c ∉ xs := fun hm => h (List.mem_cons_of_mem x hm)
      simp [splitOnChar, splitOnChar_not_mem hxs, hx]

/-- Helper: `splitOnChar` after a leading separator. -/
theorem splitOnChar_cons_self (c : Char) (b : List Char) :
    splitOnChar c (c :: b) = [] :: splitOnChar c b := by
  cases h : splitOnChar c b with
  | nil => exact absurd h (splitOnChar_ne_nil c b)
  | cons t ts => simp [splitOnChar, h]

/-- Helper: `splitOnChar` under a non-separator head character. -/
theorem splitOnChar_cons_ne {c x : Char} (hx : x ≠ c) (s : List Char) :
    ∀ {t ts}, splitOnChar c s = t :: ts →
      splitOnChar c (x :: s) = (x :: t) :: ts := by
  intro t ts h
  simp [splitOnChar, h, hx]

/-- Helper: `splitOnChar` distributes over the first separator. -/
theorem splitOnChar_append {c : Char} :
    ∀ {a : List Char} (b : List Char), c ∉ a →
      splitOnChar c (a ++ c :: b) = a :: splitOnChar c b
  | [], b, _ => by simpa using splitOnChar_cons_self c b
  | x :: xs, b, h => by
      have hx : x ≠ c := fun hxc => h (hxc ▸ List.mem_cons_self x xs)
      have hxs : c ∉ xs := fun hm => h (List.mem_cons_of_mem x hm)
      have ih := splitOnChar_append b hxs
      simpa using splitOnChar_cons_ne hx (xs ++ c :: b) ih

/-- Helper: a separator character is never inside a wellformed token. -/
theorem not_mem_of_wfToken {t : List Char} (h : wfToken t) {x : Char}
    (hx : sipPlainChar x = false) : x ∉ t := by
  intro hm
  have := h x hm
  rw [hx] at this
  exact Bool.noConfusion this

/-- Helper: plain characters differ from separator characters. -/
theorem ne_of_plain {c x : Char} (hp : sipPlainChar c = true)
    (hx : sipPlainChar x = false) : c ≠ x := by
  intro h
  rw [h, hx] at hp
  exact Bool.noConfusion hp

/-- Helper: lowercase tokens are fixed by `Char.toLower`. -/
theorem map_toLower_self : ∀ {t : List Char}, lowerToken t →
    t.map Char.toLower = t
  | [], _ => rfl
  | x :: xs, h => by
      have hx := h x (List.mem_cons_self x xs)
      have hxs : lowerToken xs := fun c hc => h c (List.mem_cons_of_mem x hc)
      simp [hx, map_toLower_self hxs]

/-- Helper: lowering the keys of a wellformed parameter map changes
nothing. -/
theorem lowered_params_id : ∀ {ps : SipParams}, wfParams ps →
    (ps.map fun p => (p.1.map Char.toLower, p.2)) = ps
  | [], _ => rfl
  | p :: ps, h => by
      have hp := h p (List.mem_cons_self p ps)
      have hps : wfParams ps := fun q hq => h q (List.mem_cons_of_mem p hq)
      simp [map_toLower_self hp.2.1, lowered_params_id hps]

/-- Helper: printing one parameter. -/
theorem paramsChars_cons (p : List Char × Option (List Char)) (ps : SipParams) :
    paramsChars (p :: ps) = paramChars p ++ paramsChars ps := by
  simp [paramsChars]

/-- Helper: every character of a printed parameter tail is plain, `';'`
or `'='`. -/
theorem mem_paramsChars : ∀ {ps : SipParams}, wfParams ps →
    ∀ {c : Char}, c ∈ paramsChars ps →
      sipPlainChar c = true ∨ c = ';' ∨ c = '='
  | [], _, c, hc => by simp [paramsChars] at hc
  | (k, v) :: ps, h, c, hc => by
      have hp := h (k, v) (List.mem_cons_self _ ps)
      have hps : wfParams ps := fun q hq => h q (List.mem_cons_of_mem _ hq)
      rw [paramsChars_cons] at hc
      rcases List.mem_append.mp hc with hc | hc
      · cases v with
        | none =>
            simp only [paramChars, List.mem_cons] at hc
            rcases hc with rfl | hc
            · exact Or.inr (Or.inl rfl)
            · exact Or.inl (hp.1 c hc)
        | some w =>
            simp only [paramChars, List.mem_cons, List.mem_append] at hc
            rcases hc with rfl | hc | hc
            · exact Or.inr (Or.inl rfl)
            · exact Or.inl (hp.1 c hc)
            · rcases hc with rfl | hc
              · exact Or.inr (Or.inr rfl)
              · exact Or.inl (hp.2.2 w rfl c hc)
      · exact mem_paramsChars hps hc

/-- Helper: separators other than `';'`/`'='` never occur in a printed
parameter tail. -/
theorem sep_not_mem_paramsChars {ps : SipParams} (h : wfParams ps)
    {x : Char} (hx : sipPlainChar x = false) (hx1 : x ≠ ';') (hx2 : x ≠ '=') :
    x ∉ paramsChars ps := by
  intro hm
  rcases mem_paramsChars h hm with hp | rfl | rfl
  · exact ne_of_plain hp hx rfl
  · exact hx1 rfl
  · exact hx2 rfl

/-- Helper: the separator never occurs inside a wellformed parameter
token. -/
theorem semi_not_mem_paramToken {k : List Char} {v : Option (List Char)}
    (hk : wfToken k) (hv : ∀ w, v = some w → wfToken w) :
    (';' : Char) ∉ paramToken k v := by
  intro hm
  unfold paramToken at hm
  rcases List.mem_append.mp hm with hm | hm
  · exact not_mem_of_wfToken hk (by decide) hm
  · cases v with
    | none => simp at hm
    | some w =>
        rcases List.mem_cons.mp hm with h' | hm
        · exact absurd h' (by decide)
        · exact not_mem_of_wfToken (hv w rfl) (by decide) hm

/-- Helper: one printed parameter token parses back. -/
theorem parseOneParam_roundtrip {k : List Char} {v : Option (List Char)}
    (hk : wfToken k) (hlk : lowerToken k) :
    parseOneParam (paramToken k v) = (k, v) := by
  have hne : ('=' : Char) ∉ k := not_mem_of_wfToken hk (by decide)
  cases v with
  | none =>
      simp [parseOneParam, paramToken, splitAtChar_not_mem hne,
        map_toLower_self hlk]
  | some w =>
      simp [parseOneParam, paramToken, splitAtChar_append w hne,
        map_toLower_self hlk]

/-- Helper: a printed parameter list has the shape `';' :: token ++ rest`. -/
theorem paramsChars_cons_shape (k : List Char) (v : Option (List Char))
    (ps : SipParams) :
    paramsChars ((k, v) :: ps) = ';' :: (paramToken k v ++ paramsChars ps) := by
  cases v <;> simp [paramsChars_cons, paramChars, paramToken]

/-- Helper: a printed parameter region parses back to the parameter
list. -/
theorem parseParamsRegion_roundtrip : ∀ {ps : SipParams}, wfParams ps →
    parseParamsRegion (paramsChars ps) = ps
  | [], _ => rfl
  | (k, v) :: ps, h => by
      have hp := h (k, v) (List.mem_cons_self _ ps)
      have hps : wfParams ps := fun q hq => h q (List.mem_cons_of_mem _ hq)
      have htok : (';' : Char) ∉ paramToken k v :=
        semi_not_mem_paramToken hp.1 hp.2.2
      rw [paramsChars_cons_shape]
      cases hps' : ps with
      | nil =>
          subst hps'
          simp only [paramsChars, List.map_nil, List.flatten_nil,
            List.append_nil]
          simp only [parseParamsRegion, splitOnChar_not_mem htok,
            List.map_cons, List.map_nil]
          rw [parseOneParam_roundtrip hp.1 hp.2.1]
      | cons q qs =>
          obtain ⟨k2, v2⟩ := q
          subst hps'
          have ih2 : (splitOnChar ';'
              (paramToken k2 v2 ++ paramsChars qs)).map parseOneParam =
              (k2, v2) :: qs := by
            have ih := parseParamsRegion_roundtrip hps
            rw [paramsChars_cons_shape] at ih
            simpa [parseParamsRegion] using ih
          rw [paramsChars_cons_shape k2 v2 qs]
          simp only [parseParamsRegion]
          rw [splitOnChar_append _ htok, List.map_cons,
            parseOneParam_roundtrip hp.1 hp.2.1, ih2]

/-- Helper: the value of a digit character. -/
theorem digitChar_toNat {d : ℕ} (h : d < 10) : (digitChar d).toNat = 48 + d := by
  interval_cases d <;> decide

/-- Helper: digit characters are plain. -/
theorem digitChar_plain {d : ℕ} (h : d < 10) : sipPlainChar (digitChar d) = true := by
  interval_cases d <;> decide

/-- Helper: every character of a printed number is plain. -/
theorem natToChars_plain {n : ℕ} {c : Char} (hc : c ∈ natToChars n) :
    sipPlainChar c = true := by
  simp only [natToChars, List.mem_map, List.mem_reverse] at hc
  obtain ⟨d, hd, rfl⟩ := hc
  exact digitChar_plain (Nat.digits_lt_base (by norm_num) hd)

/-- Helper: folding the digit characters back into a number. -/
theorem foldl_map_digitChar : ∀ (L : List ℕ), (∀ d ∈ L, d < 10) → ∀ a : ℕ,
    (L.map digitChar).foldl (fun acc c => acc * 10 + (c.toNat - 48)) a =
      L.foldl (fun acc d => acc * 10 + d) a
  | [], _, _ => rfl
  | d :: L, hL, a => by
      simp only [List.map_cons, List.foldl_cons,
        digitChar_toNat (hL d (List.mem_cons_self d L))]
      have h48 : 48 + d - 48 = d := by omega
      rw [h48]
      exact foldl_map_digitChar L (fun x hx => hL x (List.mem_cons_of_mem d hx)) _

/-- Helper: folding a reversed little-endian digit list. -/
theorem foldl_reverse_digits : ∀ (L : List ℕ) (a : ℕ),
    L.reverse.foldl (fun acc d => acc * 10 + d) a =
      a * 10 ^ L.length + Nat.ofDigits 10 L
  | [], a => by simp
  | d :: L, a => by
      simp only [List.reverse_cons, List.foldl_append, List.foldl_cons,
        List.foldl_nil]
      rw [foldl_reverse_digits L a]
      simp only [Nat.ofDigits_cons, List.length_cons, pow_succ]
      ring

/-- Helper: printing then parsing a number is the identity. -/
theorem parseNat_natToChars (n : ℕ) : parseNat (natToChars n) = n := by
  unfold parseNat natToChars
  rw [foldl_map_digitChar _ (fun d hd =>
    Nat.digits_lt_base (by norm_num) (List.mem_reverse.mp hd)) 0]
  rw [foldl_reverse_digits]
  simp [Nat.ofDigits_digits]

/-- Helper: `splitAtChar` at a leading separator. -/
theorem splitAtChar_cons_self (c : Char) (b : List Char) :
    splitAtChar c (c :: b) = ([], some b) := by
  simp [splitAtChar]

/-- Helper: `splitAtChar` under a non-separator head. -/
theorem splitAtChar_cons_ne {c x : Char} (h : x ≠ c) (s : List Char) :
    splitAtChar c (x :: s) =
      (x :: (splitAtChar c s).1, (splitAtChar c s).2) := by
  cases hs : splitAtChar c s with
  | mk a b => simp [splitAtChar, h, hs]

/-- Helper: `splitAtChar` skips a separator-free prefix. -/
theorem splitAtChar_append_left {c : Char} :
    ∀ {x : List Char}, c ∉ x → ∀ (y : List Char),
      splitAtChar c (x ++ y) = (x ++ (splitAtChar c y).1, (splitAtChar c y).2)
  | [], _, y => by simp
  | a :: x, h, y => by
      have ha : a ≠ c := fun hac => h (hac ▸ List.mem_cons_self a x)
      have hx : c ∉ x := fun hm => h (List.mem_cons_of_mem a hm)
      rw [List.cons_append, splitAtChar_cons_ne ha,
        splitAtChar_append_left hx y]
      rfl

/-- Helper: printing a wellformed URI and parsing it back is the
identity. -/
theorem parseURI_toChars {u : URI} (wf : wfURI u) :
    parseURI u.toChars = some u := by
  obtain ⟨scheme, user, host, port, params⟩ := u
  obtain ⟨hsch, hschne, huser, hhost, hport, hparams⟩ := wf
  have hlow : (params.map fun p => (p.1.map Char.toLower, p.2)) = params :=
    lowered_params_id hparams
  have hs_colon : (':' : Char) ∉ scheme := not_mem_of_wfToken hsch (by decide)
  have hh_amp : ('@' : Char) ∉ host := not_mem_of_wfToken hhost (by decide)
  have hh_colon : (':' : Char) ∉ host := not_mem_of_wfToken hhost (by decide)
  have hh_semi : (';' : Char) ∉ host := not_mem_of_wfToken hhost (by decide)
  rcases user with _ | us
  · rcases port with _ | p
    · cases params with
      | nil =>
          have h0 : URI.toChars ⟨scheme, none, host, none, []⟩ =
              scheme ++ ':' :: host := by
            simp [URI.toChars, hschne, paramsChars]
          have h1 := splitAtChar_append host hs_colon (c := ':')
          have h2 := splitAtChar_not_mem hh_semi
          have h3 := splitAtChar_not_mem hh_amp
          have h4 := splitAtChar_not_mem hh_colon
          rw [h0]
          simp only [parseURI, h1, h2, h3, h4]
      | cons q qs =>
          obtain ⟨k2, v2⟩ := q
          have hregion : parseParamsRegion
              (';' :: (paramToken k2 v2 ++ paramsChars qs)) = (k2, v2) :: qs := by
            rw [← paramsChars_cons_shape]
            exact parseParamsRegion_roundtrip hparams
          have h0 : URI.toChars ⟨scheme, none, host, none, (k2, v2) :: qs⟩ =
              scheme ++ ':' ::
                (host ++ ';' :: (paramToken k2 v2 ++ paramsChars qs)) := by
            rw [URI.toChars]
            simp [hschne, hlow, paramsChars_cons_shape]
          have h1 := splitAtChar_append
            (host ++ ';' :: (paramToken k2 v2 ++ paramsChars qs)) hs_colon (c := ':')
          have h2 := splitAtChar_append
            (paramToken k2 v2 ++ paramsChars qs) hh_semi (c := ';')
          have h3 := splitAtChar_not_mem hh_amp
          have h4 := splitAtChar_not_mem hh_colon
          rw [h0]
          simp only [parseURI, h1, h2, h3, h4, hregion]
    · have hp0 : p ≠ 0 := fun h => hport (congrArg some h)
      have hd_semi : (';' : Char) ∉ natToChars p :=
        fun hm => absurd (natToChars_plain hm) (by decide)
      have hat : ('@' : Char) ∉ host ++ ':' :: natToChars p := by
        intro hm
        rcases List.mem_append.mp hm with hm | hm
        · exact absurd (hhost _ hm) (by decide)
        · rcases List.mem_cons.mp hm with h' | hm
          · exact absurd h' (by decide)
          · exact absurd (natToChars_plain hm) (by decide)
      cases params with
      | nil =>
          have hsem_all : (';' : Char) ∉ host ++ ':' :: natToChars p := by
            intro hm
            rcases List.mem_append.mp hm with hm | hm
            · exact absurd (hhost _ hm) (by decide)
            · rcases List.mem_cons.mp hm with h' | hm
              · exact absurd h' (by decide)
              · exact hd_semi hm
          have h0 : URI.toChars ⟨scheme, none, host, some p, []⟩ =
              scheme ++ ':' :: (host ++ ':' :: natToChars p) := by
            simp [URI.toChars, hschne, hp0, paramsChars]
          have h1 := splitAtChar_append
            (host ++ ':' :: natToChars p) hs_colon (c := ':')
          have h2 := splitAtChar_not_mem hsem_all
          have h3 := splitAtChar_not_mem hat
          have h4 := splitAtChar_append (natToChars p) hh_colon (c := ':')
          rw [h0]
          simp only [parseURI, h1, h2, h3, h4, parseNat_natToChars]
      | cons q qs =>
          obtain ⟨k2, v2⟩ := q
          have hregion : parseParamsRegion
              (';' :: (paramToken k2 v2 ++ paramsChars qs)) = (k2, v2) :: qs := by
            rw [← paramsChars_cons_shape]
            exact parseParamsRegion_roundtrip hparams
          have h0 : URI.toChars ⟨scheme, none, host, some p, (k2, v2) :: qs⟩ =
              scheme ++ ':' :: (host ++ ':' ::
                (natToChars p ++ ';' :: (paramToken k2 v2 ++ paramsChars qs))) := by
            rw [URI.toChars]
            simp [hschne, hp0, hlow, paramsChars_cons_shape]
          have h1 := splitAtChar_append (host ++ ':' ::
            (natToChars p ++ ';' :: (paramToken k2 v2 ++ paramsChars qs)))
            hs_colon (c := ':')
          have h2 : splitAtChar ';' (host ++ ':' ::
              (natToChars p ++ ';' :: (paramToken k2 v2 ++ paramsChars qs))) =
              (host ++ ':' :: natToChars p,
               some (paramToken k2 v2 ++ paramsChars qs)) := by
            rw [splitAtChar_append_left hh_semi,
              splitAtChar_cons_ne (show (':' : Char) ≠ ';' by decide),
              splitAtChar_append _ hd_semi]
          have h3 := splitAtChar_not_mem hat
          have h4 := splitAtChar_append (natToChars p) hh_colon (c := ':')
          rw [h0]
          simp only [parseURI, h1, h2, h3, h4, parseNat_natToChars, hregion]
  · obtain ⟨hus, husne⟩ := huser us rfl
    have hu_amp : ('@' : Char) ∉ us := not_mem_of_wfToken hus (by decide)
    have hu_semi : (';' : Char) ∉ us := not_mem_of_wfToken hus (by decide)
    rcases port with _ | p
    · cases params with
      | nil =>
          have h0 : URI.toChars ⟨scheme, some us, host, none, []⟩ =
              scheme ++ ':' :: (us ++ '@' :: host) := by
            simp [URI.toChars, hschne, husne, paramsChars]
          have h1 := splitAtChar_append (us ++ '@' :: host) hs_colon (c := ':')
          have h2 : splitAtChar ';' (us ++ '@' :: host) =
              (us ++ '@' :: host, none) := by
            refine splitAtChar_not_mem ?_
            intro hm
            rcases List.mem_append.mp hm with hm | hm
            · exact hu_semi hm
            · rcases List.mem_cons.mp hm with h' | hm
              · exact absurd h' (by decide)
              · exact hh_semi hm
          have h3 := splitAtChar_append host hu_amp (c := '@')
          have h4 := splitAtChar_not_mem hh_colon
          rw [h0]
          simp only [parseURI, h1, h2, h3, h4]
      | cons q qs =>
          obtain ⟨k2, v2⟩ := q
          have hregion : parseParamsRegion
              (';' :: (paramToken k2 v2 ++ paramsChars qs)) = (k2, v2) :: qs := by
            rw [← paramsChars_cons_shape]
            exact parseParamsRegion_roundtrip hparams
          have h0 : URI.toChars ⟨scheme, some us, host, none, (k2, v2) :: qs⟩ =
              scheme ++ ':' :: (us ++ '@' ::
                (host ++ ';' :: (paramToken k2 v2 ++ paramsChars qs))) := by
            rw [URI.toChars]
            simp [hschne, husne, hlow, paramsChars_cons_shape]
          have h1 := splitAtChar_append (us ++ '@' ::
            (host ++ ';' :: (paramToken k2 v2 ++ paramsChars qs))) hs_colon (c := ':')
          have h2 : splitAtChar ';' (us ++ '@' ::
              (host ++ ';' :: (paramToken k2 v2 ++ paramsChars qs))) =
              (us ++ '@' :: host,
               some (paramToken k2 v2 ++ paramsChars qs)) := by
            rw [splitAtChar_append_left hu_semi,
              splitAtChar_cons_ne (show ('@' : Char) ≠ ';' by decide),
              splitAtChar_append _ hh_semi]
          have h3 := splitAtChar_append host hu_amp (c := '@')
          have h4 := splitAtChar_not_mem hh_colon
          rw [h0]
          simp only [parseURI, h1, h2, h3, h4, hregion]
    · have hp0 : p ≠ 0 := fun h => hport (congrArg some h)
      have hd_semi : (';' : Char) ∉ natToChars p :=
        fun hm => absurd (natToChars_plain hm) (by decide)
      cases params with
      | nil =>
          have h0 : URI.toChars ⟨scheme, some us, host, some p, []⟩ =
              scheme ++ ':' :: (us ++ '@' :: (host ++ ':' :: natToChars p)) := by
            simp [URI.toChars, hschne, husne, hp0, paramsChars]
          have h1 := splitAtChar_append
            (us ++ '@' :: (host ++ ':' :: natToChars p)) hs_colon (c := ':')
          have h2 : splitAtChar ';'
              (us ++ '@' :: (host ++ ':' :: natToChars p)) =
              (us ++ '@' :: (host ++ ':' :: natToChars p), none) := by
            refine splitAtChar_not_mem ?_
            intro hm
            rcases List.mem_append.mp hm with hm | hm
            · exact hu_semi hm
            · rcases List.mem_cons.mp hm with h' | hm
              · exact absurd h' (by decide)
              · rcases List.mem_append.mp hm with hm | hm
                · exact hh_semi hm
                · rcases List.mem_cons.mp hm with h' | hm
                  · exact absurd h' (by decide)
                  · exact hd_semi hm
          have h3 := splitAtChar_append
            (host ++ ':' :: natToChars p) hu_amp (c := '@')
          have h4 := splitAtChar_append (natToChars p) hh_colon (c := ':')
          rw [h0]
          simp only [parseURI, h1, h2, h3, h4, parseNat_natToChars]
      | cons q qs =>
          obtain ⟨k2, v2⟩ := q
          have hregion : parseParamsRegion
              (';' :: (paramToken k2 v2 ++ paramsChars qs)) = (k2, v2) :: qs := by
            rw [← paramsChars_cons_shape]
            exact parseParamsRegion_roundtrip hparams
          have h0 : URI.toChars ⟨scheme, some us, host, some p, (k2, v2) :: qs⟩ =
              scheme ++ ':' :: (us ++ '@' :: (host ++ ':' ::
                (natToChars p ++ ';' ::
                  (paramToken k2 v2 ++ paramsChars qs)))) := by
            rw [URI.toChars]
            simp [hschne, husne, hp0, hlow, paramsChars_cons_shape]
          have h1 := splitAtChar_append (us ++ '@' :: (host ++ ':' ::
            (natToChars p ++ ';' :: (paramToken k2 v2 ++ paramsChars qs))))
            hs_colon (c := ':')
          have h2 : splitAtChar ';' (us ++ '@' :: (host ++ ':' ::
              (natToChars p ++ ';' :: (paramToken k2 v2 ++ paramsChars qs)))) =
              (us ++ '@' :: (host ++ ':' :: natToChars p),
               some (paramToken k2 v2 ++ paramsChars qs)) := by
            rw [splitAtChar_append_left hu_semi,
              splitAtChar_cons_ne (show ('@' : Char) ≠ ';' by decide),
              splitAtChar_append_left hh_semi,
              splitAtChar_cons_ne (show (':' : Char) ≠ ';' by decide),
              splitAtChar_append _ hd_semi]
          have h3 := splitAtChar_append
            (host ++ ':' :: natToChars p) hu_amp (c := '@')
          have h4 := splitAtChar_append (natToChars p) hh_colon (c := ':')
          rw [h0]
          simp only [parseURI, h1, h2, h3, h4, parseNat_natToChars, hregion]

/-- Helper: separators other than `':'`, `'@'`, `';'`, `'='` never occur
in a printed wellformed URI (in particular `'>'` and `'"'` do not). -/
theorem sep_not_mem_toChars {u : URI} (wf : wfURI u) {x : Char}
    (hxp : sipPlainChar x = false) (h1 : x ≠ ':') (h2 : x ≠ '@')
    (h3 : x ≠ ';') (h4 : x ≠ '=') : x ∉ u.toChars := by
  obtain ⟨scheme, user, host, port, params⟩ := u
  obtain ⟨hsch, hschne, huser, hhost, hport, hparams⟩ := wf
  dsimp only at hsch hschne huser hhost hport hparams
  intro hm
  rw [URI.toChars] at hm
  dsimp only at hm
  rw [if_neg hschne, lowered_params_id hparams] at hm
  simp only [List.append_assoc] at hm
  rcases List.mem_append.mp hm with hm | hm
  · exact ne_of_plain (hsch _ hm) hxp rfl
  · rcases List.mem_cons.mp hm with rfl | hm
    · exact h1 rfl
    · rcases List.mem_append.mp hm with hm | hm
      · rcases user with _ | us
        · simp at hm
        · obtain ⟨hus, husne⟩ := huser us rfl
          dsimp only at hm
          rw [if_neg husne] at hm
          rcases List.mem_append.mp hm with hm | hm
          · exact ne_of_plain (hus _ hm) hxp rfl
          · rcases List.mem_cons.mp hm with rfl | hm
            · exact h2 rfl
            · simp at hm
      · rcases List.mem_append.mp hm with hm | hm
        · exact ne_of_plain (hhost _ hm) hxp rfl
        · rcases List.mem_append.mp hm with hm | hm
          · rcases port with _ | p
            · simp at hm
            · have hp0 : p ≠ 0 := fun h => hport (congrArg some h)
              dsimp only at hm
              rw [if_neg hp0] at hm
              rcases List.mem_cons.mp hm with rfl | hm
              · exact h1 rfl
              · exact ne_of_plain (natToChars_plain hm) hxp rfl
          · exact sep_not_mem_paramsChars hparams hxp h3 h4 hm

/-- Helper: a printed wellformed URI with no URI parameters contains no
`';'` at all. -/
theorem semi_not_mem_toChars_noparams {u : URI} (wf : wfURI u)
    (hnp : u.parameters = []) : (';' : Char) ∉ u.toChars := by
  obtain ⟨scheme, user, host, port, params⟩ := u
  obtain ⟨hsch, hschne, huser, hhost, hport, hparams⟩ := wf
  dsimp only at hsch hschne huser hhost hport hparams hnp
  subst hnp
  intro hm
  rw [URI.toChars] at hm
  dsimp only at hm
  rw [if_neg hschne] at hm
  simp only [List.append_assoc] at hm
  rcases List.mem_append.mp hm with hm | hm
  · exact ne_of_plain (hsch _ hm) (by decide) rfl
  · rcases List.mem_cons.mp hm with h' | hm
    · exact absurd h' (by decide)
    · rcases List.mem_append.mp hm with hm | hm
      · rcases user with _ | us
        · simp at hm
        · obtain ⟨hus, husne⟩ := huser us rfl
          dsimp only at hm
          rw [if_neg husne] at hm
          rcases List.mem_append.mp hm with hm | hm
          · exact ne_of_plain (hus _ hm) (by decide) rfl
          · rcases List.mem_cons.mp hm with h' | hm
            · exact absurd h' (by decide)
            · simp at hm
      · rcases List.mem_append.mp hm with hm | hm
        · exact ne_of_plain (hhost _ hm) (by decide) rfl
        · rcases List.mem_append.mp hm with hm | hm
          · rcases port with _ | p
            · simp at hm
            · have hp0 : p ≠ 0 := fun h => hport (congrArg some h)
              dsimp only at hm
              rw [if_neg hp0] at hm
              rcases List.mem_cons.mp hm with h' | hm
              · exact absurd h' (by decide)
              · exact ne_of_plain (natToChars_plain hm) (by decide) rfl
          · simp [paramsChars] at hm

/-- C9 (amended): printing a `NameAddrHeader` and parsing the result
preserves display name, URI and header parameters **provided** the
display name is present (nonempty), or the URI carries no URI
parameters.  When the display name is absent, `toString` emits the bare
`addr-spec` form without angle brackets, so on reparse every
`;`-parameter after the URI is a header parameter (RFC 3261 §20): header
parameters survive only because the URI contributed none of its own.
Wellformedness asks for printable fields: nonempty plain scheme, plain
nonempty user needing no percent-encoding (when present), plain host, no
zero port, lowercase plain parameter keys, plain parameter values, and a
nonempty quote-free display name when present. -/
theorem claim_C9_nameaddr_roundtrip (h : NameAddrHeader) (wf : wfNA h)
    (hok : h.displayPresent = true ∨ h.uri.parameters = []) :
    parseNameAddr h.toChars = some h := by
  obtain ⟨u, dn, ps⟩ := h
  obtain ⟨hwfu, hdn, hps⟩ := wf
  dsimp only at hwfu hdn hps hok
  have hregion : parseParamsRegion (paramsChars ps) = ps :=
    parseParamsRegion_roundtrip hps
  rcases dn with _ | d
  · have hnp : u.parameters = [] := by
      rcases hok with hok | hok
      · exact absurd hok (by simp [NameAddrHeader.displayPresent])
      · exact hok
    have hsemi : (';' : Char) ∉ u.toChars :=
      semi_not_mem_toChars_noparams hwfu hnp
    have hpr : NameAddrHeader.toChars ⟨u, none, ps⟩ =
        u.toChars ++ paramsChars ps := by
      simp [NameAddrHeader.toChars, NameAddrHeader.displayPresent]
    obtain ⟨scheme, user, host, port, uparams⟩ := u
    have hsch : wfToken scheme := hwfu.1
    have hschne : scheme ≠ [] := hwfu.2.1
    cases hscheme : scheme with
    | nil => exact absurd hscheme hschne
    | cons c0 sc =>
        subst hscheme
        have hc0 : c0 ≠ '"' :=
          ne_of_plain (hsch c0 (List.mem_cons_self c0 sc)) (by decide)
        obtain ⟨rest0, hrest0⟩ :
            ∃ r, URI.toChars ⟨c0 :: sc, user, host, port, uparams⟩ = c0 :: r := by
          rw [URI.toChars]
          dsimp only
          rw [if_neg (by simp : ¬(c0 :: sc = []))]
          exact ⟨_, List.cons_append c0 sc _⟩
        have hshape : NameAddrHeader.toChars
            ⟨⟨c0 :: sc, user, host, port, uparams⟩, none, ps⟩ =
            c0 :: (rest0 ++ paramsChars ps) := by
          rw [hpr, hrest0, List.cons_append]
        rw [hshape]
        have hback : c0 :: (rest0 ++ paramsChars ps) =
            URI.toChars ⟨c0 :: sc, user, host, port, uparams⟩ ++
              paramsChars ps := by
          rw [hrest0, List.cons_append]
        simp only [parseNameAddr, if_neg hc0]
        rw [show parseBareAddr (c0 :: (rest0 ++ paramsChars ps)) =
            parseBareAddr (URI.toChars ⟨c0 :: sc, user, host, port, uparams⟩ ++
              paramsChars ps) from by rw [hback]]
        cases hps' : ps with
        | nil =>
            subst hps'
            have h2 : splitAtChar ';'
                (URI.toChars ⟨c0 :: sc, user, host, port, uparams⟩ ++
                  paramsChars []) =
                (URI.toChars ⟨c0 :: sc, user, host, port, uparams⟩, none) := by
              simp only [paramsChars, List.map_nil, List.flatten_nil,
                List.append_nil]
              exact splitAtChar_not_mem hsemi
            simp only [parseBareAddr, h2, parseURI_toChars hwfu]
        | cons q qs =>
            obtain ⟨k2, v2⟩ := q
            subst hps'
            have h2 : splitAtChar ';'
                (URI.toChars ⟨c0 :: sc, user, host, port, uparams⟩ ++
                  paramsChars ((k2, v2) :: qs)) =
                (URI.toChars ⟨c0 :: sc, user, host, port, uparams⟩,
                 some (paramToken k2 v2 ++ paramsChars qs)) := by
              rw [paramsChars_cons_shape, splitAtChar_append _ hsemi]
            have hregion' : parseParamsRegion
                (';' :: (paramToken k2 v2 ++ paramsChars qs)) =
                (k2, v2) :: qs := by
              rw [← paramsChars_cons_shape]
              exact hregion
            simp only [parseBareAddr, h2, parseURI_toChars hwfu, hregion']
  · obtain ⟨hdne, hdq⟩ := hdn d rfl
    have hde : d.isEmpty = false := by
      cases d with
      | nil => exact absurd rfl hdne
      | cons _ _ => rfl
    have hgt : ('>' : Char) ∉ u.toChars :=
      sep_not_mem_toChars hwfu (by decide) (by decide) (by decide)
        (by decide) (by decide)
    have hpr : NameAddrHeader.toChars ⟨u, some d, ps⟩ =
        '"' :: (d ++ '"' :: ' ' :: '<' ::
          (u.toChars ++ '>' :: paramsChars ps)) := by
      simp [NameAddrHeader.toChars, NameAddrHeader.displayPresent, hde]
    rw [hpr]
    have h1 : splitAtChar '"'
        (d ++ '"' :: ' ' :: '<' :: (u.toChars ++ '>' :: paramsChars ps)) =
        (d, some (' ' :: '<' :: (u.toChars ++ '>' :: paramsChars ps))) :=
      splitAtChar_append _ hdq
    have h2 : splitAtChar '>' (u.toChars ++ '>' :: paramsChars ps) =
        (u.toChars, some (paramsChars ps)) :=
      splitAtChar_append _ hgt
    simp only [parseNameAddr, if_pos rfl, h1, h2, parseURI_toChars hwfu,
      hregion]
    simp

/-- C9 counterexample: the claim asserts the round trip "in particular
also when display_name is absent and header parameters are present".
Take the header with no display name, URI `sip:h;t=x` (one URI
parameter) and one header parameter `q`.  `toString` prints the bare
form `sip:h;t=x;q`; reparsing attributes *both* parameters to the header
(RFC 3261 §20), so the URI comes back stripped of `t=x` and the header
gains it: the URI and the parameter map both differ from the original. -/
theorem claim_C9_counterexample :
    parseNameAddr (NameAddrHeader.toChars
        ⟨⟨['s', 'i', 'p'], none, ['h'], none, [(['t'], some ['x'])]⟩, none,
          [(['q'], none)]⟩) =
      some ⟨⟨['s', 'i', 'p'], none, ['h'], none, []⟩, none,
        [(['t'], some ['x']), (['q'], none)]⟩ ∧
    (⟨⟨['s', 'i', 'p'], none, ['h'], none, []⟩, none,
        [(['t'], some ['x']), (['q'], none)]⟩ : NameAddrHeader) ≠
      ⟨⟨['s', 'i', 'p'], none, ['h'], none, [(['t'], some ['x'])]⟩, none,
        [(['q'], none)]⟩ := by
  exact ⟨by decide, by decide⟩

/-- C9 witness: the amended round trip applied to
`"Bob" <sip:a@ho:60;t=x>;q`, a header with display name, user, port, one
URI parameter and one header parameter. -/
theorem claim_C9_roundtrip_witness :
    wfNA ⟨⟨['s', 'i', 'p'], some ['a'], ['h', 'o'], some 60,
        [(['t'], some ['x'])]⟩, some ['B', 'o', 'b'], [(['q'], none)]⟩ ∧
    (NameAddrHeader.displayPresent
        ⟨⟨['s', 'i', 'p'], some ['a'], ['h', 'o'], some 60,
          [(['t'], some ['x'])]⟩, some ['B', 'o', 'b'], [(['q'], none)]⟩ = true ∨
      (⟨['s', 'i', 'p'], some ['a'], ['h', 'o'], some 60,
        [(['t'], some ['x'])]⟩ : URI).parameters = []) ∧
    parseNameAddr (NameAddrHeader.toChars
        ⟨⟨['s', 'i', 'p'], some ['a'], ['h', 'o'], some 60,
          [(['t'], some ['x'])]⟩, some ['B', 'o', 'b'], [(['q'], none)]⟩) =
      some ⟨⟨['s', 'i', 'p'], some ['a'], ['h', 'o'], some 60,
        [(['t'], some ['x'])]⟩, some ['B', 'o', 'b'], [(['q'], none)]⟩ := by
  have hwf : wfNA ⟨⟨['s', 'i', 'p'], some ['a'], ['h', 'o'], some 60,
      [(['t'], some ['x'])]⟩, some ['B', 'o', 'b'], [(['q'], none)]⟩ := by
    refine ⟨⟨?_, by decide, ?_, ?_, by decide, ?_⟩, ?_, ?_⟩
    · unfold wfToken
      decide
    · intro us h
      injection h with h2
      subst h2
      exact ⟨by unfold wfToken; decide, by decide⟩
    · unfold wfToken
      decide
    · intro p hp
      rcases List.mem_singleton.mp hp with rfl
      refine ⟨by unfold wfToken; decide, by unfold lowerToken; decide, ?_⟩
      intro v hv
      injection hv with h2
      subst h2
      unfold wfToken
      decide
    · intro d h
      injection h with h2
      subst h2
      exact ⟨by decide, by decide⟩
    · intro p hp
      rcases List.mem_singleton.mp hp with rfl
      refine ⟨by unfold wfToken; decide, by unfold lowerToken; decide, ?_⟩
      intro v hv
      exact Option.noConfusion hv
  refine ⟨hwf, Or.inl (by decide), ?_⟩
  exact claim_C9_nameaddr_roundtrip _ hwf (Or.inl (by decide))

/-- C10: once a `Message` is closed, every later `receiveResponse`,
`onRequestTimeout` or `onTransportError` (and any further `close`)
returns without changing state or emitting anything; and over any
sequence of callback invocations starting from a fresh `Message`, at most
one terminal event (`succeeded` or `failed`) is ever emitted — never
both, never twice. -/
theorem claim_C10_single_terminal_event (evs : List MessageEvent)
    (a : MessageAction) (acts : List MessageAction) :
    messageStep ⟨true, evs⟩ a = ⟨true, evs⟩ ∧
    (messageRun MessageState.initial acts).emitted.length ≤ 1 := by
  refine ⟨messageStep_closed evs a, ?_⟩
  simpa using messageRun_open_length [] acts

/-- C8 (amended): calling `terminate()` on a session whose status is
already Terminated sends no SIP message and changes no state, but it is
not silent: it throws `InvalidStateError`, whatever the options and
direction. -/
theorem claim_C8_terminate_terminated_throws (sc : Option ℕ)
    (incoming serverTxnTerminated : Bool) :
    rtcTerminate SessionStatus.terminated sc incoming serverTxnTerminated =
      Except.error TerminateError.invalidState := rfl

/-- C5 witness: the amended statement applied at attempts = 3,
`Math.random() = 1/2`, `min_interval = 2`, `max_interval = 30`. -/
theorem claim_C5_recovery_backoff_witness :
    ((0 : ℚ) ≤ 1 / 2 ∧ (1 / 2 : ℚ) < 1 ∧ (2 : ℚ) ≤ 30) ∧
    ((1 ≤ ⌊(1 / 2 : ℚ) * 2 ^ 3 + 1⌋ ∧ ⌊(1 / 2 : ℚ) * 2 ^ 3 + 1⌋ ≤ 2 ^ 3) ∧
     (recoverTransport 3 (1 / 2) 2 30).nextRetrySeconds ≤ 30 ∧
     ((⌊(1 / 2 : ℚ) * 2 ^ 3 + 1⌋ : ℚ) * 2 > 30 →
       recoverTransport 3 (1 / 2) 2 30 = ⟨2, 0⟩) ∧
     ((⌊(1 / 2 : ℚ) * 2 ^ 3 + 1⌋ : ℚ) * 2 ≤ 30 →
       recoverTransport 3 (1 / 2) 2 30 =
         ⟨(⌊(1 / 2 : ℚ) * 2 ^ 3 + 1⌋ : ℚ) * 2, 3⟩) ∧
     attemptsAfterTransportConnected = 0) :=
  ⟨⟨by norm_num, by norm_num, by norm_num⟩,
   claim_C5_recovery_backoff 3 (1 / 2) 2 30 (by norm_num) (by norm_num)
     (by norm_num)⟩

end SipJs
